import Mathlib

/-!
Shallow embedding of the crawler engine in `main.py` of the
`crawler-api` repository (FastAPI web crawler).

Conventions of the embedding:
* Python strings are Lean `String`s; Python sets and the FIFO
  `asyncio.Queue` are Lean lists (sets are lists kept duplicate-free by
  the very guards the source code uses; the queue is dequeued from the
  head and enqueued at the tail).
* `urllib.parse.urlparse` / `urljoin` are external library calls; they
  are embedded, following CPython's `urlsplit` algorithm, for the URL
  shapes the crawler handles: `scheme://host/path?query#fragment`
  (plus scheme-less strings, which parse with empty scheme and
  netloc), and hrefs that are absolute, host-relative (`/p`), or
  simple relative references (without `..` normalization).
* String primitives are written structurally over `List Char` so that
  every definition evaluates inside the kernel.
* An HTML document is represented by the list of `href` attribute
  values of its anchor tags, which is exactly what
  `BeautifulSoup(...).find_all('a', href=True)` extracts from it.
* The network is a deterministic oracle `Net`: for each URL either a
  raised exception (`Except.error ()`, covering timeout and transport
  failure) or a response with status, Content-Type header (`""` when
  the header is missing, matching `headers.get('Content-Type', '')`)
  and body.
* The cooperative-concurrency batch (`asyncio.gather` over at most 5
  `crawl_url` coroutines) is linearized as a left fold over the batch;
  every property verified below (set membership, set sizes, per-URL
  records) is independent of the interleaving, because each mutation
  sequence between `await` points in the source is atomic and guarded
  by the same membership tests.
-/

/-- Result record appended to `crawl_results[task_id]["urls"]`:
`{"url": ..., "status": ..., "new": True}`; `status` is `none` for a
discovered-but-not-yet-crawled URL (Python `None`). -/
structure URLRecord where
  url : String
  status : Option Nat
  isNew : Bool
deriving DecidableEq, Repr

/-- The components of `urllib.parse.urlparse` that the crawler reads:
`scheme`, `netloc` and `path`. -/
structure UrlParts where
  scheme : String
  netloc : String
  path : String
deriving DecidableEq, Repr

/-- Does `pat` occur at the head of `s`? (`str.startswith`). -/
def listStartsWith : List Char → List Char → Bool
  | [], _ => true
  | _ :: _, [] => false
  | p :: ps, c :: cs => p == c && listStartsWith ps cs

/-- Does `pat` occur anywhere in `s`? (Python's `pat in s`). -/
def listContains (pat : List Char) : List Char → Bool
  | [] => listStartsWith pat []
  | c :: cs => listStartsWith pat (c :: cs) || listContains pat cs

/-- Split `s` at the first occurrence of the character `t`: the part
before it, and (when `t` occurs) the part after it. -/
def breakFirst (t : Char) : List Char → List Char × Option (List Char)
  | [] => ([], none)
  | c :: cs =>
    if c == t then ([], some cs)
    else
      let r := breakFirst t cs
      (c :: r.1, r.2)

/-- `str.endswith`, via the reversed character lists. -/
def strEndsWith (s pat : String) : Bool :=
  listStartsWith pat.toList.reverse s.toList.reverse

/-- `str.startswith`. -/
def strStartsWith (s pat : String) : Bool :=
  listStartsWith pat.toList s.toList

/-- Python's `pat in s` substring test. -/
def strContains (s pat : String) : Bool :=
  listContains pat.toList s.toList

/-- `str.lower` (ASCII case folding, as used on URLs here). -/
def strToLower (s : String) : String :=
  String.mk (s.toList.map Char.toLower)

/-- A character allowed in a URL scheme (CPython's `scheme_chars`):
letters, digits, `+`, `-`, `.`. -/
def isSchemeChar (c : Char) : Bool :=
  c.isAlphanum || c == '+' || c == '-' || c == '.'

/-- Embedding of `urllib.parse.urlparse`, following CPython's
`urlsplit`: the fragment (after the first `#`) is removed, then the
query (after the first `?`); the part before the first `:` is the
scheme iff it is non-empty, starts with a letter and has only scheme
characters (then it is lower-cased); the authority follows a `//` and
extends to the next `/`; the rest is the path. -/
def urlparse (u : String) : UrlParts :=
  let cs := u.toList
  let beforeFrag := (breakFirst '#' cs).1
  let beforeQuery := (breakFirst '?' beforeFrag).1
  let schemeRest : List Char × List Char :=
    match breakFirst ':' beforeQuery with
    | (pre, some post) =>
      if pre ≠ [] && (pre.headD ' ').isAlpha && pre.all isSchemeChar then
        (pre.map Char.toLower, post)
      else ([], beforeQuery)
    | (_, none) => ([], beforeQuery)
  let rest := schemeRest.2
  let netlocPath : List Char × List Char :=
    if listStartsWith ['/', '/'] rest then
      let r := rest.drop 2
      (r.takeWhile (fun c => c != '/'), r.dropWhile (fun c => c != '/'))
    else ([], rest)
  ⟨String.mk schemeRest.1, String.mk netlocPath.1, String.mk netlocPath.2⟩

/-- Embedding of `urllib.parse.urljoin` for the href shapes the crawler
handles: an href containing `://` is already absolute and returned
unchanged; `//h/p` adopts the base scheme; `/p` is resolved against the
base authority; an empty href returns the base; any other href replaces
the last segment of the base path. -/
def urljoin (base href : String) : String :=
  if strContains href "://" then href
  else if strStartsWith href "//" then (urlparse base).scheme ++ ":" ++ href
  else if strStartsWith href "/" then
    (urlparse base).scheme ++ "://" ++ (urlparse base).netloc ++ href
  else if href = "" then base
  else
    let b := urlparse base
    let dirRev := b.path.toList.reverse.dropWhile (fun c => c != '/')
    let dir := if dirRev = [] then "/" else String.mk dirRev.reverse
    b.scheme ++ "://" ++ b.netloc ++ dir ++ href

/-- `SKIP_EXTENSIONS` from `main.py`, verbatim. -/
def SKIP_EXTENSIONS : List String :=
  [".jpg", ".jpeg", ".png", ".gif", ".bmp", ".svg", ".webp",
   ".css", ".js", ".ico", ".pdf", ".doc", ".docx", ".xls", ".xlsx",
   ".zip", ".rar", ".tar", ".gz", ".mp3", ".mp4", ".avi", ".mov",
   ".flv", ".wmv", ".woff", ".woff2", ".ttf", ".eot"]

/-- `is_valid_url(url, base_domain)` from `main.py`: parse the URL,
reject when the lower-cased path ends with a skipped extension, then
accept iff the netloc equals `base_domain` and the scheme is non-empty
(`bool(parsed.scheme)`).  The `except` branch of the source returns
`False` on a parse failure; the embedded `urlparse` is total, so that
branch is unreachable here. -/
def is_valid_url (url : String) (base_domain : String) : Bool :=
  let parsed := urlparse url
  let path := strToLower parsed.path
  if SKIP_EXTENSIONS.any (fun ext => strEndsWith path ext) then false
  else parsed.netloc == base_domain && parsed.scheme != ""

/-- A response as the crawler reads it: status, Content-Type header and
body (the body abstracted to its anchor hrefs, see the file header). -/
structure HttpResponse where
  status : Nat
  contentType : String
  body : List String
deriving DecidableEq, Repr

/-- Deterministic network oracle: per URL, either a raised exception
(timeout / transport failure) or a response. -/
abbrev Net := String → Except Unit HttpResponse

/-- `fetch_url(session, url)` from `main.py`: on an exception returns
`(None, 0)`; on a response with status 200 whose Content-Type contains
`text/html` returns the body text and the status; otherwise returns
`(None, status)`. -/
def fetch_url (net : Net) (url : String) : Option (List String) × Nat :=
  match net url with
  | .error _ => (none, 0)
  | .ok r =>
    if r.status == 200 && strContains r.contentType "text/html" then
      (some r.body, r.status)
    else
      (none, r.status)

/-- `extract_links(html_content, base_url)` from `main.py`: computes
`base_domain = urlparse(base_url).netloc`, resolves every anchor href
against `base_url`, and keeps those accepted by `is_valid_url` against
that domain (note: the domain of the page being parsed, `base_url`,
not of the crawl root). -/
def extract_links (hrefs : List String) (base_url : String) : List String :=
  let base_domain := (urlparse base_url).netloc
  (hrefs.map (fun href => urljoin base_url href)).filter
    (fun u => is_valid_url u base_domain)

/-- The per-task crawl state of `crawl_site` in `main.py`: the local
variables `discovered_urls`, `crawled_urls`, `queue`, together with the
task's entry `crawl_results[task_id] = {"urls": ..., "complete": ...}`.
Sets are duplicate-free lists in insertion order; the queue is a FIFO
list (head = front). -/
structure CrawlState where
  discovered_urls : List String
  crawled_urls : List String
  queue : List String
  urls : List URLRecord
  complete : Bool
deriving DecidableEq, Repr

/-- The state of `crawl_site` just before its scheduler loop: the
initial URL has been put on the queue and added to `discovered_urls`;
no result record is appended for it. -/
def init_state (url : String) : CrawlState :=
  { discovered_urls := [url]
    crawled_urls := []
    queue := [url]
    urls := []
    complete := false }

/-- The per-link body of the discovery loop in `crawl_url`: if the link
is in neither `discovered_urls` nor `crawled_urls`, add it to
`discovered_urls`, put it on the queue, and append the pending record
`{"url": link, "status": None, "new": True}`; otherwise do nothing. -/
def enqueue_link (link : String) (st : CrawlState) : CrawlState :=
  if link ∈ st.discovered_urls ∨ link ∈ st.crawled_urls then st
  else
    { st with
      discovered_urls := st.discovered_urls ++ [link]
      queue := st.queue ++ [link]
      urls := st.urls ++ [⟨link, none, true⟩] }

/-- `crawl_url(session, url, queue, discovered_urls, crawled_urls,
base_domain, task_id)` from `main.py`: return if the URL is already
crawled; otherwise mark it crawled, fetch it, append the result record
`{"url": url, "status": status, "new": True}`, and if content was
returned enqueue each extracted link.  (`base_domain` is passed by the
caller and, as in the source, never used: `extract_links` receives the
page's own URL.) -/
def crawl_url (net : Net) (url : String) (base_domain : String) (st : CrawlState) :
    CrawlState :=
  if url ∈ st.crawled_urls then st
  else
    let st1 := { st with crawled_urls := st.crawled_urls ++ [url] }
    let res := fetch_url net url
    let st2 := { st1 with urls := st1.urls ++ [⟨url, some res.2, true⟩] }
    match res.1 with
    | none => st2
    | some body => (extract_links body url).foldl (fun s l => enqueue_link l s) st2

/-- The scheduler loop of `crawl_site`: while the queue is nonempty and
`len(crawled_urls) < max_urls`, dequeue a batch of `min(5, qsize)`
URLs and run `crawl_url` on each (the concurrent batch linearized as a
fold); when the loop exits, set `complete = True`.  `fuel` bounds the
number of loop iterations modelled; `none` means the loop was still
running after `fuel` rounds. -/
def crawl_loop (net : Net) (base_domain : String) (max_urls : Nat) :
    Nat → CrawlState → Option CrawlState
  | 0, _ => none
  | fuel + 1, st =>
    if st.queue = [] ∨ max_urls ≤ st.crawled_urls.length then
      some { st with complete := true }
    else
      let n := min 5 st.queue.length
      let batch := st.queue.take n
      let st1 := { st with queue := st.queue.drop n }
      let st2 := batch.foldl (fun s u => crawl_url net u base_domain s) st1
      crawl_loop net base_domain max_urls fuel st2

/-- `crawl_site(url, respect_robots, max_urls, task_id)` from
`main.py`: compute `base_domain = urlparse(url).netloc`, seed the
frontier with the initial URL, and run the scheduler loop.  The
`respect_robots` flag is accepted and, as in the source, never read. -/
def crawl_site (net : Net) (url : String) (respect_robots : Bool)
    (max_urls : Nat) (fuel : Nat) : Option CrawlState :=
  crawl_loop net (urlparse url).netloc max_urls fuel (init_state url)

/-- One full pass of the `for url_data in crawl_results[task_id]["urls"]`
loop inside `event_generator` in `main.py`, over a fixed log: returns
the updated `sent_urls` and the records yielded during the pass (a
record is yielded, and its URL added to `sent_urls`, iff its URL is not
yet in `sent_urls`). -/
def event_scan (sent : List String) : List URLRecord → List String × List URLRecord
  | [] => (sent, [])
  | r :: rest =>
    if r.url ∈ sent then event_scan sent rest
    else
      let p := event_scan (sent ++ [r.url]) rest
      (p.1, r :: p.2)

/-- The `while True` loop of `event_generator` in `main.py`, for a task
whose log and `complete` flag no longer change (the regime in which the
stream is expected to drain and stop): each iteration scans the log,
yields the unseen records, and breaks iff `complete` is true and
`len(sent_urls) == len(urls)`; otherwise it sleeps and rescans.  `fuel`
bounds the number of iterations modelled; `some out` means the
generator terminated having yielded exactly `out`, `none` that it was
still looping after `fuel` iterations. -/
def event_generator (log : List URLRecord) (complete : Bool) :
    Nat → List String → List URLRecord → Option (List URLRecord)
  | 0, _, _ => none
  | fuel + 1, sent, out =>
    let p := event_scan sent log
    let out2 := out ++ p.2
    if complete && (p.1.length == log.length) then some out2
    else event_generator log complete fuel p.1 out2

/-- One task's entry in the global `crawl_results` dict. -/
structure TaskEntry where
  urls : List URLRecord
  complete : Bool
deriving DecidableEq, Repr

/-- The global `crawl_results` dict, as an association list. -/
abbrev Registry := List (String × TaskEntry)

/-- `task_id in crawl_results` / `crawl_results[task_id]`. -/
def lookup_task (reg : Registry) (task_id : String) : Option TaskEntry :=
  (reg.find? (fun p => p.1 == task_id)).map (fun p => p.2)

/-- The JSON body returned by `GET /crawl/{task_id}`. -/
structure Snapshot where
  urls : List URLRecord
  complete : Bool
  count : Nat
deriving DecidableEq, Repr

/-- `get_results(task_id)` from `main.py`: raise a 404 `HTTPException`
when the task id is not in `crawl_results`, else return the log, the
completion flag and the record count.  The handler only reads the
registry; the returned registry is the (unchanged) global state. -/
def get_results (reg : Registry) (task_id : String) :
    Registry × Except Nat Snapshot :=
  match lookup_task reg task_id with
  | none => (reg, Except.error 404)
  | some t => (reg, Except.ok ⟨t.urls, t.complete, t.urls.length⟩)

/-- `stream_results(task_id)` from `main.py`: raise a 404
`HTTPException` when the task id is not in `crawl_results`, else hand
the task's entry to the SSE event generator.  The handler only reads
the registry; the returned registry is the (unchanged) global state. -/
def stream_results (reg : Registry) (task_id : String) :
    Registry × Except Nat TaskEntry :=
  match lookup_task reg task_id with
  | none => (reg, Except.error 404)
  | some t => (reg, Except.ok t)

/-- Network oracle for the C1 counterexample: the seed page is an HTML
page with five same-domain links; every other URL answers 200 with a
non-HTML Content-Type. -/
def netC1 : Net := fun u =>
  if u = "http://a.test/" then
    .ok ⟨200, "text/html", ["http://a.test/1", "http://a.test/2",
                            "http://a.test/3", "http://a.test/4", "http://a.test/5"]⟩
  else .ok ⟨200, "", []⟩

/-- The final state of the C1 counterexample crawl
(`max_urls = 2`, ample fuel). -/
def stC1 : CrawlState :=
  (crawl_site netC1 "http://a.test/" false 2 10).getD (init_state "http://a.test/")

/-- Network oracle on which every fetch raises (timeout / transport
failure). -/
def netErr : Net := fun _ => .error ()

/-- The final state of a crawl whose seed fetch fails. -/
def stC3 : CrawlState :=
  (crawl_site netErr "http://a.test/" false 10 5).getD (init_state "http://a.test/")

/-- Every link returned by `extract_links` was accepted by the
classifier against the domain of `base_url`. -/
theorem mem_extract_links {u : String} {hrefs : List String} {base_url : String}
    (h : u ∈ extract_links hrefs base_url) :
    is_valid_url u (urlparse base_url).netloc = true := by
  unfold extract_links at h
  exact (List.mem_filter.mp h).2

/-- A URL accepted by the classifier for `d` has netloc exactly `d`. -/
theorem valid_url_netloc {u d : String} (h : is_valid_url u d = true) :
    (urlparse u).netloc = d := by
  simp only [is_valid_url] at h
  split at h
  · exact absurd h (by simp)
  · simp only [Bool.and_eq_true, beq_iff_eq, bne_iff_ne] at h
    exact h.1

/-- C4 counterexample.  `extract_links` filters with the domain of the
page being parsed, not the domain of the crawl's root: for a crawl
rooted at `http://a.test/`, parsing a page at `http://b.test/p` (an
authority different from the root's) accepts the `b.test` link and
rejects the `a.test` one — the opposite of the claim that the accepted
links are those in the root domain. -/
theorem C4_counterexample :
    extract_links ["http://b.test/x", "http://a.test/y"] "http://b.test/p"
      = ["http://b.test/x"] := by decide

/-- C4 (amended): every link accepted by `extract_links` is accepted by
the classifier against the domain of the page URL passed as `base_url`
(which is what `crawl_url` passes: the page currently being parsed),
and therefore lies in that page's domain — not necessarily in the
crawl root's domain. -/
theorem C4_amended (hrefs : List String) (base_url u : String)
    (h : u ∈ extract_links hrefs base_url) :
    is_valid_url u (urlparse base_url).netloc = true ∧
      (urlparse u).netloc = (urlparse base_url).netloc :=
  ⟨mem_extract_links h, valid_url_netloc (mem_extract_links h)⟩

/-- Witness for C4 (amended) at a concrete page and link. -/
theorem C4_amended_witness :
    is_valid_url "http://b.test/x" (urlparse "http://b.test/p").netloc = true ∧
      (urlparse "http://b.test/x").netloc = (urlparse "http://b.test/p").netloc :=
  C4_amended ["http://b.test/x"] "http://b.test/p" "http://b.test/x" (by decide)

/-- C6: `fetch_url` never raises and always resolves to a pair: on a
raised exception it returns `(none, 0)`; on a 200 response whose
Content-Type contains `text/html` it returns the body and 200; in
every other case it returns `(none, status)` with the status
preserved. -/
theorem C6_fetch_contract (net : Net) (url : String) :
    (net url = Except.error () → fetch_url net url = (none, 0))
  ∧ (∀ r, net url = Except.ok r →
      (r.status = 200 → strContains r.contentType "text/html" = true →
        fetch_url net url = (some r.body, 200))
    ∧ (¬ (r.status = 200 ∧ strContains r.contentType "text/html" = true) →
        fetch_url net url = (none, r.status))) := by
  refine ⟨fun h => by simp [fetch_url, h],
    fun r h => ⟨fun h200 hct => by simp [fetch_url, h, h200, hct], fun hn => ?_⟩⟩
  simp only [fetch_url, h]
  rw [if_neg]
  simp only [Bool.and_eq_true, beq_iff_eq]
  exact fun hc => hn ⟨hc.1, hc.2⟩

/-- Witness for C6 at a concrete failing fetch. -/
theorem C6_fetch_contract_witness :
    fetch_url netErr "http://a.test/" = (none, 0) :=
  (C6_fetch_contract netErr "http://a.test/").1 rfl

/-- C7: the classifier `is_valid_url` accepts a URL for a domain iff
the parsed URL has a non-empty scheme, its authority is string-equal to
the domain (so subdomains are rejected), and its lower-cased path ends
with none of the skip-list extensions; it rejects in every other case.
It is a pure function of its two string arguments. -/
theorem C7_classifier (url domain : String) :
    is_valid_url url domain = true ↔
      ((urlparse url).scheme ≠ "" ∧ (urlparse url).netloc = domain ∧
        ∀ ext ∈ SKIP_EXTENSIONS,
          strEndsWith (strToLower (urlparse url).path) ext = false) := by
  simp only [is_valid_url]
  split
  next hskip =>
    simp only [List.any_eq_true] at hskip
    obtain ⟨ext, hmem, hend⟩ := hskip
    constructor
    · intro hf; exact absurd hf (by simp)
    · rintro ⟨-, -, hall⟩
      rw [hall ext hmem] at hend
      exact absurd hend (by simp)
  next hskip =>
    simp only [List.any_eq_true, not_exists, not_and, Bool.not_eq_true] at hskip
    simp only [Bool.and_eq_true, beq_iff_eq, bne_iff_ne]
    constructor
    · rintro ⟨h1, h2⟩
      exact ⟨h2, h1, fun ext hm => hskip ext hm⟩
    · rintro ⟨h1, h2, -⟩
      exact ⟨h2, h1⟩

/-- Witness for C7 at a concrete in-scope URL. -/
theorem C7_classifier_witness :
    is_valid_url "http://a.test/b" "a.test" = true :=
  (C7_classifier "http://a.test/b" "a.test").mpr (by decide)

/-- C9: the `respect_robots_txt` flag has no effect: for every network,
root URL, `max_urls` and fuel, the crawl with the flag set is the very
same computation as the crawl with it cleared — the entire final state
(discovered set, visited set, queue, result log, completion flag)
coincides. -/
theorem C9_respect_robots_noninterference (net : Net) (url : String)
    (max_urls fuel : Nat) :
    crawl_site net url true max_urls fuel = crawl_site net url false max_urls fuel :=
  rfl

/-- C10: for a task id absent from the registry, both the snapshot read
(`get_results`) and the stream read (`stream_results`) fail with a 404
error and leave the registry (hence every task's log and completion
flag) unchanged; for a present task id, neither raises. -/
theorem C10_task_lookup (reg : Registry) (task_id : String) :
    (lookup_task reg task_id = none →
        get_results reg task_id = (reg, Except.error 404)
      ∧ stream_results reg task_id = (reg, Except.error 404))
  ∧ (∀ t, lookup_task reg task_id = some t →
        get_results reg task_id = (reg, Except.ok ⟨t.urls, t.complete, t.urls.length⟩)
      ∧ stream_results reg task_id = (reg, Except.ok t)) := by
  unfold get_results stream_results
  constructor
  · intro h; rw [h]; exact ⟨rfl, rfl⟩
  · intro t h; rw [h]; exact ⟨rfl, rfl⟩

/-- Witness for C10 on the empty registry. -/
theorem C10_task_lookup_witness :
    get_results [] "tid" = ([], Except.error 404)
  ∧ stream_results [] "tid" = ([], Except.error 404) :=
  (C10_task_lookup [] "tid").1 rfl

/-- C1 counterexample.  With `max_urls = 2` and a seed page carrying 5
in-domain links, the crawl visits 6 URLs: the pre-round check
`len(crawled_urls) < max_urls` passes with 1 visited, and the following
round dispatches a batch of 5, overshooting the cap. -/
theorem C1_counterexample :
    crawl_site netC1 "http://a.test/" false 2 10 = some stC1 ∧
      2 < stC1.crawled_urls.length := by
  exact ⟨by decide, by decide⟩

/-- C3 counterexample.  The root URL is inserted into `queue` and
`discovered_urls` when the task starts, but no pending record
`{url: root, status: None}` is ever appended: after a crawl whose seed
fetch fails, the root is in the discovered set while the log contains
no pending record for it. -/
theorem C3_counterexample :
    "http://a.test/" ∈ stC3.discovered_urls ∧
      (URLRecord.mk "http://a.test/" none true) ∉ stC3.urls := by decide

/-- C3 (amended): a discovered-link insertion via `enqueue_link`
happens iff the link is absent from both `discovered_urls` and
`crawled_urls`, appends exactly one pending record at insertion time,
and is idempotent (a second call before the link is dequeued is a
no-op); the root URL, by contrast, is placed in `queue` and
`discovered_urls` at task start with no pending record appended. -/
theorem C3_amended (link : String) (st : CrawlState) :
    (link ∉ st.discovered_urls ∧ link ∉ st.crawled_urls →
      enqueue_link link st =
        { st with
            discovered_urls := st.discovered_urls ++ [link]
            queue := st.queue ++ [link]
            urls := st.urls ++ [⟨link, none, true⟩] })
  ∧ (link ∈ st.discovered_urls ∨ link ∈ st.crawled_urls → enqueue_link link st = st)
  ∧ enqueue_link link (enqueue_link link st) = enqueue_link link st
  ∧ ((init_state link).discovered_urls = [link] ∧ (init_state link).queue = [link] ∧
      (init_state link).urls = []) := by
  refine ⟨?_, ?_, ?_, rfl, rfl, rfl⟩
  · intro h
    simp only [enqueue_link]
    rw [if_neg]
    exact fun hc => hc.elim h.1 h.2
  · intro h
    simp only [enqueue_link]
    rw [if_pos h]
  · by_cases h : link ∈ st.discovered_urls ∨ link ∈ st.crawled_urls
    · have he : enqueue_link link st = st := by simp only [enqueue_link]; rw [if_pos h]
      rw [he]; exact he
    · simp only [enqueue_link, if_neg h]
      rw [if_pos]
      left
      exact List.mem_append_right _ (List.mem_singleton_self _)

/-- Witness for C3 (amended): enqueueing a fresh link onto the initial
state of a crawl of `http://a.test/`. -/
theorem C3_amended_witness :
    enqueue_link "http://a.test/b" (init_state "http://a.test/") =
      { discovered_urls := ["http://a.test/", "http://a.test/b"]
        crawled_urls := []
        queue := ["http://a.test/", "http://a.test/b"]
        urls := [⟨"http://a.test/b", none, true⟩]
        complete := false } := by
  have h := (C3_amended "http://a.test/b" (init_state "http://a.test/")).1
    ⟨by decide, by decide⟩
  exact h

/-- The result log used by the C2 counterexample: the two records the
engine writes for one discovered-then-crawled URL (a pending and a
completed one). -/
def logC2 : List URLRecord :=
  [⟨"http://a.test/b", none, true⟩, ⟨"http://a.test/b", some 200, true⟩]

/-- C2 counterexample.  On a completed task whose log holds a pending
and a completed record for the same URL, the event generator is still
looping after 10 scan iterations (it dedupes by URL, so
`len(sent_urls)` can never reach `len(urls)`), and a full scan yields
only the pending record — the completed one is skipped. -/
theorem C2_counterexample :
    event_generator logC2 true 10 [] [] = none ∧
      (event_scan [] logC2).2 = [⟨"http://a.test/b", none, true⟩] := by decide

/-- A scan pass over a log whose URLs are fresh (none in `sent_urls`)
and pairwise distinct yields every record, in order, and records all
their URLs. -/
theorem event_scan_of_disjoint (log : List URLRecord) (sent : List String)
    (hd : ∀ r ∈ log, r.url ∉ sent) (hn : (log.map URLRecord.url).Nodup) :
    event_scan sent log = (sent ++ log.map URLRecord.url, log) := by
  induction log generalizing sent with
  | nil => simp [event_scan]
  | cons r rest ih =>
    have hn' : URLRecord.url r ∉ List.map URLRecord.url rest ∧
        (List.map URLRecord.url rest).Nodup := by
      rw [List.map_cons, List.nodup_cons] at hn
      exact hn
    simp only [event_scan]
    rw [if_neg (hd r (List.mem_cons_self r rest))]
    rw [ih (sent ++ [r.url]) ?_ hn'.2]
    · simp
    · intro x hx
      simp only [List.mem_append, List.mem_singleton]
      rintro (h | h)
      · exact hd x (List.mem_cons_of_mem _ hx) h
      · exact hn'.1 (h ▸ List.mem_map_of_mem URLRecord.url hx)

/-- A scan pass over a log all of whose URLs have been sent already
yields nothing and leaves `sent_urls` unchanged. -/
theorem event_scan_fixed (log : List URLRecord) (sent : List String)
    (h : ∀ r ∈ log, r.url ∈ sent) :
    event_scan sent log = (sent, []) := by
  induction log with
  | nil => rfl
  | cons r rest ih =>
    simp only [event_scan]
    rw [if_pos (h r (List.mem_cons_self r rest))]
    exact ih (fun x hx => h x (List.mem_cons_of_mem _ hx))

/-- After a scan pass, `sent_urls` holds exactly the previous
`sent_urls` together with the URLs of the log. -/
theorem event_scan_sent_mem (log : List URLRecord) (sent : List String) (u : String) :
    u ∈ (event_scan sent log).1 ↔ u ∈ sent ∨ u ∈ log.map URLRecord.url := by
  induction log generalizing sent with
  | nil => simp [event_scan]
  | cons r rest ih =>
    simp only [event_scan, List.map_cons, List.mem_cons]
    split
    next hmem =>
      rw [ih]
      constructor
      · rintro (h | h)
        exacts [Or.inl h, Or.inr (Or.inr h)]
      · rintro (h | h | h)
        exacts [Or.inl h, Or.inl (h ▸ hmem), Or.inr h]
    next hmem =>
      rw [ih]
      simp only [List.mem_append, List.mem_singleton]
      tauto

/-- A scan pass keeps `sent_urls` duplicate-free. -/
theorem event_scan_sent_nodup (log : List URLRecord) (sent : List String)
    (h : sent.Nodup) : (event_scan sent log).1.Nodup := by
  induction log generalizing sent with
  | nil => exact h
  | cons r rest ih =>
    simp only [event_scan]
    split
    next => exact ih sent h
    next hmem =>
      exact ih (sent ++ [r.url]) (by simp [List.nodup_append, h, hmem])

/-- Once every URL of the log is in `sent_urls`, the generator loops
forever whenever the break condition cannot hold (the task is not
complete, or `len(sent_urls)` differs from `len(urls)`). -/
theorem event_generator_stuck (log : List URLRecord) (complete : Bool) :
    ∀ fuel (sent : List String) (out : List URLRecord),
      (∀ r ∈ log, r.url ∈ sent) →
      (complete = false ∨ sent.length ≠ log.length) →
      event_generator log complete fuel sent out = none := by
  intro fuel
  induction fuel with
  | zero => intros; rfl
  | succ f ih =>
    intro sent out hall hne
    simp only [event_generator]
    rw [event_scan_fixed log sent hall]
    rw [if_neg ?_]
    · exact ih sent (out ++ []) hall hne
    · rcases hne with h | h <;> simp [h]

/-- C2 (amended): on a fixed, completed task the event generator yields
exactly the log and terminates (in one pass) when no URL repeats in the
log; when some URL carries two records (the pending/completed dual
write), `len(sent_urls)` can never reach `len(urls)`, so the generator
never terminates — and only the first record per URL is ever yielded;
and while the task is not complete the generator never terminates
regardless of the log. -/
theorem C2_amended (log : List URLRecord) (fuel : Nat) :
    ((log.map URLRecord.url).Nodup → 1 ≤ fuel →
        event_generator log true fuel [] [] = some log)
  ∧ (¬ (log.map URLRecord.url).Nodup →
        event_generator log true fuel [] [] = none)
  ∧ event_generator log false fuel [] [] = none := by
  have hmem1 : ∀ r ∈ log, r.url ∈ (event_scan [] log).1 := fun r hr =>
    (event_scan_sent_mem log [] r.url).mpr (Or.inr (List.mem_map_of_mem _ hr))
  refine ⟨?_, ?_, ?_⟩
  · intro hn hf
    obtain ⟨f, rfl⟩ : ∃ f, fuel = f + 1 := ⟨fuel - 1, by omega⟩
    simp only [event_generator]
    rw [event_scan_of_disjoint log [] (by simp) hn]
    simp
  · intro hn
    cases fuel with
    | zero => rfl
    | succ f =>
      have hnd : ((event_scan [] log).1).Nodup := event_scan_sent_nodup log [] List.nodup_nil
      have hlt : ((event_scan [] log).1).length < log.length := by
        have h1 : ((event_scan [] log).1).toFinset.card = ((event_scan [] log).1).length :=
          List.toFinset_card_of_nodup hnd
        have h2 : ((event_scan [] log).1).toFinset = (log.map URLRecord.url).toFinset := by
          ext u
          simp only [List.mem_toFinset]
          rw [event_scan_sent_mem log [] u]
          simp
        have h3 : (log.map URLRecord.url).toFinset.card
            = (log.map URLRecord.url).dedup.length := List.card_toFinset _
        have h4 : (log.map URLRecord.url).dedup.length < (log.map URLRecord.url).length := by
          rcases lt_or_eq_of_le (List.dedup_sublist (log.map URLRecord.url)).length_le with h | h
          · exact h
          · exact absurd (List.Sublist.eq_of_length (List.dedup_sublist _) h ▸
              List.nodup_dedup (log.map URLRecord.url)) hn
        have h5 : (log.map URLRecord.url).length = log.length := List.length_map _ _
        have h6 : ((event_scan [] log).1).toFinset.card
            = (log.map URLRecord.url).toFinset.card := by rw [h2]
        omega
      simp only [event_generator]
      rw [if_neg (by simp [Nat.ne_of_lt hlt])]
      exact event_generator_stuck log true f _ _ hmem1 (Or.inr (Nat.ne_of_lt hlt))
  · cases fuel with
    | zero => rfl
    | succ f =>
      simp only [event_generator]
      rw [if_neg (by simp)]
      exact event_generator_stuck log false f _ _ hmem1 (Or.inl rfl)

/-- Witness for C2 (amended): a one-record log is yielded once and the
stream terminates after a single pass. -/
theorem C2_amended_witness :
    event_generator [⟨"http://a.test/", some 200, true⟩] true 1 [] []
      = some [⟨"http://a.test/", some 200, true⟩] :=
  (C2_amended [⟨"http://a.test/", some 200, true⟩] 1).1 (by decide) (by decide)

/-- `enqueue_link` never touches the visited set. -/
theorem enqueue_link_crawled (link : String) (st : CrawlState) :
    (enqueue_link link st).crawled_urls = st.crawled_urls := by
  unfold enqueue_link
  split <;> rfl

/-- The discovery fold never touches the visited set. -/
theorem fold_enqueue_crawled (links : List String) (st : CrawlState) :
    (links.foldl (fun s l => enqueue_link l s) st).crawled_urls = st.crawled_urls := by
  induction links generalizing st with
  | nil => rfl
  | cons l ls ih =>
    simp only [List.foldl_cons]
    rw [ih, enqueue_link_crawled]

/-- One `crawl_url` call grows the visited set by at most one URL. -/
theorem crawl_url_crawled_length (net : Net) (url bd : String) (st : CrawlState) :
    (crawl_url net url bd st).crawled_urls.length ≤ st.crawled_urls.length + 1 := by
  simp only [crawl_url]
  split
  · exact Nat.le_succ _
  · split
    · simp
    · rw [fold_enqueue_crawled]
      simp

/-- A batch fold grows the visited set by at most the batch size. -/
theorem fold_crawl_url_length (net : Net) (bd : String) (batch : List String)
    (st : CrawlState) :
    (batch.foldl (fun s u => crawl_url net u bd s) st).crawled_urls.length
      ≤ st.crawled_urls.length + batch.length := by
  induction batch generalizing st with
  | nil => simp
  | cons b bs ih =>
    simp only [List.foldl_cons, List.length_cons]
    calc (bs.foldl (fun s u => crawl_url net u bd s) (crawl_url net b bd st)).crawled_urls.length
        ≤ (crawl_url net b bd st).crawled_urls.length + bs.length := ih _
      _ ≤ st.crawled_urls.length + 1 + bs.length :=
          Nat.add_le_add_right (crawl_url_crawled_length net b bd st) _
      _ = st.crawled_urls.length + (bs.length + 1) := by omega

/-- The scheduler loop keeps the visited set within `max_urls + 4`:
every round is dispatched only when fewer than `max_urls` URLs are
visited, and adds at most 5. -/
theorem crawl_loop_crawled_bound (net : Net) (bd : String) (m : Nat) :
    ∀ fuel (st st' : CrawlState),
      st.crawled_urls.length ≤ m + 4 →
      crawl_loop net bd m fuel st = some st' →
      st'.crawled_urls.length ≤ m + 4 := by
  intro fuel
  induction fuel with
  | zero =>
    intro st st' _ hrun
    simp [crawl_loop] at hrun
  | succ f ih =>
    intro st st' hst hrun
    simp only [crawl_loop] at hrun
    split at hrun
    · have h := Option.some_inj.mp hrun
      subst h
      exact hst
    next hcond =>
      apply ih _ _ ?_ hrun
      push_neg at hcond
      have hlt : st.crawled_urls.length < m := hcond.2
      have hb := fold_crawl_url_length net bd
        (st.queue.take (min 5 st.queue.length))
        { st with queue := st.queue.drop (min 5 st.queue.length) }
      have htake : (st.queue.take (min 5 st.queue.length)).length ≤ 5 := by
        simp [List.length_take]
      simp only at hb
      omega

/-- C1 (amended): the visited set can exceed `maxURLs`, but never by
more than 4: the pre-round check only guarantees
`len(crawled_urls) < max_urls` before a batch of at most 5 is
dispatched, so `len(crawled_urls) ≤ max_urls + 4` holds at termination
(and hence throughout, the visited set being append-only).  The bound
`maxURLs` itself is violated — see the counterexample. -/
theorem C1_amended (net : Net) (url : String) (respect_robots : Bool)
    (max_urls fuel : Nat) (st : CrawlState)
    (hrun : crawl_site net url respect_robots max_urls fuel = some st) :
    st.crawled_urls.length ≤ max_urls + 4 := by
  unfold crawl_site at hrun
  exact crawl_loop_crawled_bound net (urlparse url).netloc max_urls fuel
    (init_state url) st (by simp [init_state]) hrun

/-- Witness for C1 (amended) on the counterexample crawl
(`max_urls = 2`, 6 visited, within the `+ 4` slack). -/
theorem C1_amended_witness : stC1.crawled_urls.length ≤ 2 + 4 :=
  C1_amended netC1 "http://a.test/" false 2 10 stC1 (by decide)

/-- C5: when the fetch of the seed URL raises (timeout / transport
failure), the task terminates with exactly one record
`{url: seed, status: 0}`, an empty queue, `complete = true`, and no URL
beyond the seed ever discovered — for any positive `max_urls` and any
sufficient fuel. -/
theorem C5_seed_fetch_failure (net : Net) (url : String) (respect_robots : Bool)
    (max_urls fuel : Nat) (hm : 0 < max_urls)
    (hnet : net url = Except.error ()) :
    crawl_site net url respect_robots max_urls (fuel + 2) =
      some ⟨[url], [url], [], [⟨url, some 0, true⟩], true⟩ := by
  unfold crawl_site
  show crawl_loop _ _ _ (fuel + 1 + 1) _ = _
  simp [crawl_loop, init_state, crawl_url, fetch_url, hnet,
    Nat.pos_iff_ne_zero.mp hm]

/-- Witness for C5: a concrete crawl whose every fetch raises. -/
theorem C5_seed_fetch_failure_witness :
    crawl_site netErr "http://a.test/" false 10 5 =
      some ⟨["http://a.test/"], ["http://a.test/"], [],
            [⟨"http://a.test/", some 0, true⟩], true⟩ :=
  C5_seed_fetch_failure netErr "http://a.test/" false 10 3 (by decide) rfl

/-- The in-scope invariant maintained by a crawl rooted at `root`:
every discovered URL other than the root was accepted by the
classifier for the root's domain; every discovered URL's authority is
the root's; the queue and the visited set are contained in the
discovered set. -/
def InScopeInv (root : String) (st : CrawlState) : Prop :=
  (∀ u ∈ st.discovered_urls, u = root ∨ is_valid_url u (urlparse root).netloc = true)
  ∧ (∀ u ∈ st.discovered_urls, (urlparse u).netloc = (urlparse root).netloc)
  ∧ (∀ u ∈ st.queue, u ∈ st.discovered_urls)
  ∧ (∀ u ∈ st.crawled_urls, u ∈ st.discovered_urls)

/-- `enqueue_link` preserves the in-scope invariant when the link was
accepted by the classifier for the root's domain. -/
theorem enqueue_link_inv {root link : String} {st : CrawlState}
    (hinv : InScopeInv root st)
    (hl : is_valid_url link (urlparse root).netloc = true) :
    InScopeInv root (enqueue_link link st) := by
  obtain ⟨h1, h2, h3, h4⟩ := hinv
  unfold enqueue_link
  split
  · exact ⟨h1, h2, h3, h4⟩
  · refine ⟨?_, ?_, ?_, ?_⟩ <;> intro u hu
    · rcases List.mem_append.mp hu with h | h
      · exact h1 u h
      · rw [List.mem_singleton.mp h]
        exact Or.inr hl
    · rcases List.mem_append.mp hu with h | h
      · exact h2 u h
      · rw [List.mem_singleton.mp h]
        exact valid_url_netloc hl
    · rcases List.mem_append.mp hu with h | h
      · exact List.mem_append_left _ (h3 u h)
      · exact List.mem_append_right _ h
    · exact List.mem_append_left _ (h4 u hu)

/-- The discovery fold preserves the in-scope invariant when every
folded link was accepted by the classifier for the root's domain. -/
theorem fold_enqueue_inv {root : String} (links : List String) {st : CrawlState}
    (hinv : InScopeInv root st)
    (hl : ∀ l ∈ links, is_valid_url l (urlparse root).netloc = true) :
    InScopeInv root (links.foldl (fun s l => enqueue_link l s) st) := by
  induction links generalizing st with
  | nil => exact hinv
  | cons l ls ih =>
    exact ih (enqueue_link_inv hinv (hl l (List.mem_cons_self l ls)))
      (fun x hx => hl x (List.mem_cons_of_mem _ hx))

/-- `enqueue_link` never removes a URL from the discovered set. -/
theorem enqueue_link_discovered_mono {u : String} (link : String) (st : CrawlState)
    (h : u ∈ st.discovered_urls) : u ∈ (enqueue_link link st).discovered_urls := by
  unfold enqueue_link
  split
  · exact h
  · exact List.mem_append_left _ h

/-- The discovery fold never removes a URL from the discovered set. -/
theorem fold_enqueue_discovered_mono {u : String} (links : List String)
    (st : CrawlState) (h : u ∈ st.discovered_urls) :
    u ∈ (links.foldl (fun s l => enqueue_link l s) st).discovered_urls := by
  induction links generalizing st with
  | nil => exact h
  | cons l ls ih => exact ih _ (enqueue_link_discovered_mono l st h)

/-- `crawl_url` never removes a URL from the discovered set. -/
theorem crawl_url_discovered_mono {u : String} (net : Net) (url bd : String)
    (st : CrawlState) (h : u ∈ st.discovered_urls) :
    u ∈ (crawl_url net url bd st).discovered_urls := by
  simp only [crawl_url]
  split
  · exact h
  · split
    · exact h
    · exact fold_enqueue_discovered_mono _ _ h

/-- `crawl_url` preserves the in-scope invariant when the crawled URL
is already discovered: every link it enqueues passed the classifier
for the page's domain, which by the invariant is the root's domain. -/
theorem crawl_url_inv {root : String} (net : Net) {url : String} (bd : String)
    {st : CrawlState} (hinv : InScopeInv root st) (hu : url ∈ st.discovered_urls) :
    InScopeInv root (crawl_url net url bd st) := by
  obtain ⟨h1, h2, h3, h4⟩ := hinv
  have hst2 : InScopeInv root
      { st with crawled_urls := st.crawled_urls ++ [url],
                urls := st.urls ++ [⟨url, some (fetch_url net url).2, true⟩] } := by
    refine ⟨h1, h2, h3, ?_⟩
    intro u huu
    rcases List.mem_append.mp huu with h | h
    · exact h4 u h
    · rw [List.mem_singleton.mp h]
      exact hu
  simp only [crawl_url]
  split
  · exact ⟨h1, h2, h3, h4⟩
  · split
    · exact hst2
    next body hbody =>
      apply fold_enqueue_inv _ hst2
      intro l hl
      have hv := mem_extract_links hl
      rwa [h2 url hu] at hv

/-- A batch fold preserves the in-scope invariant when every batch URL
is already discovered. -/
theorem fold_crawl_url_inv {root : String} (net : Net) (bd : String)
    (batch : List String) {st : CrawlState} (hinv : InScopeInv root st)
    (hb : ∀ u ∈ batch, u ∈ st.discovered_urls) :
    InScopeInv root (batch.foldl (fun s u => crawl_url net u bd s) st) := by
  induction batch generalizing st with
  | nil => exact hinv
  | cons b bs ih =>
    apply ih (crawl_url_inv net bd hinv (hb b (List.mem_cons_self b bs)))
    intro u hu
    exact crawl_url_discovered_mono net b bd st (hb u (List.mem_cons_of_mem _ hu))

/-- The scheduler loop preserves the in-scope invariant. -/
theorem crawl_loop_inv {root : String} (net : Net) (bd : String) (m : Nat) :
    ∀ fuel (st st' : CrawlState), InScopeInv root st →
      crawl_loop net bd m fuel st = some st' → InScopeInv root st' := by
  intro fuel
  induction fuel with
  | zero =>
    intro st st' _ hrun
    simp [crawl_loop] at hrun
  | succ f ih =>
    intro st st' hinv hrun
    simp only [crawl_loop] at hrun
    split at hrun
    · have h := Option.some_inj.mp hrun
      subst h
      exact ⟨hinv.1, hinv.2.1, hinv.2.2.1, hinv.2.2.2⟩
    · apply ih _ _ ?_ hrun
      apply fold_crawl_url_inv
      · exact ⟨hinv.1, hinv.2.1,
          fun u hu => hinv.2.2.1 u (List.drop_subset _ _ hu), hinv.2.2.2⟩
      · intro u hu
        exact hinv.2.2.1 u (List.take_subset _ _ hu)

/-- C8: a URL other than the root that the classifier rejects for the
crawl root's domain (cross-domain, excluded extension, missing scheme)
never enters the discovered set or the queue, for any network, any
link strings it may serve, and any crawl length. -/
theorem C8_out_of_scope_never_enqueued (net : Net) (url : String)
    (respect_robots : Bool) (max_urls fuel : Nat) (st : CrawlState) (u : String)
    (hrun : crawl_site net url respect_robots max_urls fuel = some st)
    (hrej : is_valid_url u (urlparse url).netloc = false) (hne : u ≠ url) :
    u ∉ st.discovered_urls ∧ u ∉ st.queue := by
  unfold crawl_site at hrun
  have hinv0 : InScopeInv url (init_state url) := by
    refine ⟨?_, ?_, ?_, ?_⟩
    · intro v hv
      rw [List.mem_singleton.mp hv]
      exact Or.inl rfl
    · intro v hv
      rw [List.mem_singleton.mp hv]
    · intro v hv
      exact hv
    · intro v hv
      exact absurd hv (List.not_mem_nil v)
  have hinv := crawl_loop_inv net (urlparse url).netloc max_urls fuel
    (init_state url) st hinv0 hrun
  constructor
  · intro hmem
    rcases hinv.1 u hmem with h | h
    · exact hne h
    · rw [h] at hrej
      exact absurd hrej (by simp)
  · intro hmem
    rcases hinv.1 u (hinv.2.2.1 u hmem) with h | h
    · exact hne h
    · rw [h] at hrej
      exact absurd hrej (by simp)

/-- Network oracle for the C8 witness, the §8 scenario of the spec: the
seed page links to an in-domain page, a cross-domain page and an
excluded-extension resource. -/
def net8 : Net := fun u =>
  if u = "http://a.test/" then
    .ok ⟨200, "text/html",
      ["http://a.test/b", "http://other.test/x", "http://a.test/c.png"]⟩
  else if u = "http://a.test/b" then .ok ⟨200, "text/html", []⟩
  else .ok ⟨404, "", []⟩

/-- The final state of the §8 scenario crawl (`max_urls = 10`). -/
def st8 : CrawlState :=
  (crawl_site net8 "http://a.test/" false 10 10).getD (init_state "http://a.test/")

/-- Witness for C8 on the §8 scenario: the cross-domain link never
appears in the discovered set or the queue. -/
theorem C8_out_of_scope_never_enqueued_witness :
    "http://other.test/x" ∉ st8.discovered_urls ∧ "http://other.test/x" ∉ st8.queue :=
  C8_out_of_scope_never_enqueued net8 "http://a.test/" false 10 10 st8
    "http://other.test/x" (by decide) (by decide) (by decide)
